import Mathlib

/-!
Verification of the OSGenome acquisition-and-enrichment pipeline.

Shallow embedding of the pure cores of:
* `SNPedia/data_crawler.py` — `SNPCrawl.flip_alleles`, `is_interesting`,
  `is_uncommon`, `format_cell`, `create_entry`, `table_to_list`, the parse
  section of `grab_table` / `grab_table_async`, the retry/backoff schedules,
  and the already-fetched skip of the crawl loops;
* `SNPedia/utils/cache_manager.py` — `DataCache` (TTL + LRU eviction) and
  `load_json_paginated`.

Python strings are modelled as Lean `String` (a structure over `List Char`),
Python dicts as association lists with insertion-order semantics, and Python
exceptions as `Option`/explicit flags.
-/

set_option autoImplicit false

namespace OSGenome

/-! ### Character/string helpers mirroring the Python string primitives used -/

/-- Python `str.split(";")` on the character level: single-character separator,
keeps empty fields, `"" → [""]`. -/
def splitSemiChars : List Char → List (List Char)
  | [] => [[]]
  | c :: rest =>
    if c = ';' then [] :: splitSemiChars rest
    else
      match splitSemiChars rest with
      | [] => [[c]]
      | h :: t => (c :: h) :: t

/-- Python `genotype.split(";")`. -/
def splitSemi (s : String) : List String :=
  (splitSemiChars s.data).map String.mk

def isParenChar (c : Char) : Bool :=
  c == '(' || c == ')'

/-- Python `str.strip("()")`: drop leading and trailing characters drawn from
the set `{'(', ')'}`. -/
def stripParens (s : String) : String :=
  String.mk (((s.data.dropWhile isParenChar).reverse.dropWhile isParenChar).reverse)

/-- Python `str.lower()` restricted to ASCII, which is all the source compares. -/
def toLowerStr (s : String) : String :=
  String.mk (s.data.map Char.toLower)

/-- `startsWithList pat cs` : does `cs` start with `pat`? -/
def startsWithList : List Char → List Char → Bool
  | [], _ => true
  | _ :: _, [] => false
  | p :: ps, c :: cs => p == c && startsWithList ps cs

/-- Python `s.startswith(w)`. -/
def startsWithStr (s w : String) : Bool :=
  startsWithList w.data s.data

/-- `hasSubList pat cs` : does `pat` occur as a contiguous sublist of `cs`? -/
def hasSubList (p : List Char) : List Char → Bool
  | [] => startsWithList p []
  | c :: cs => startsWithList p (c :: cs) || hasSubList p cs

/-- Python `pat in s` (substring containment). -/
def inStr (pat s : String) : Bool :=
  hasSubList pat.data s.data

/-- `str.join` over a separator, Python `sep.join(parts)`. -/
def joinSep (sep : String) : List String → String
  | [] => ""
  | [s] => s
  | s :: rest => s ++ sep ++ joinSep sep rest

/-! ### `SNPCrawl.flip_alleles` (data_crawler.py lines 423-451) -/

/-- One allele complemented as in the `for i, allele in enumerate(...)` body:
A↔T, C↔G, anything else passes through unchanged. -/
def complementAllele (a : String) : String :=
  if a = "A" then "T"
  else if a = "T" then "A"
  else if a = "C" then "G"
  else if a = "G" then "C"
  else a

structure FlipResult where
  genotype : String
  flipped : Bool
  deriving DecidableEq

/-- `SNPCrawl.flip_alleles`.  `none` models the Python `IndexError` raised when
`strip("()").split(";")` yields three or more parts (the write to
`modified_genotype[2]` is out of range); the one-part case stores Python's
`None` rendered by `format` as the literal text `None`.  `split` never yields
zero parts, so that branch is unreachable and folded into `none`. -/
def flip_alleles (genotype : String) (stabilized_orientation : String) :
    Option FlipResult :=
  if stabilized_orientation = "minus" ∧ genotype ≠ "" then
    match splitSemi (stripParens genotype) with
    | [a] => some { genotype := "(" ++ complementAllele a ++ ";None)", flipped := true }
    | [a, b] =>
      some { genotype := "(" ++ complementAllele a ++ ";" ++ complementAllele b ++ ")",
             flipped := true }
    | _ => none
  else
    some { genotype := genotype, flipped := false }

/-! ### C9 and C2 -/

/-- C9: for all genotype pairs `(a,b)` with `a,b ∈ {A,T,C,G}`, normalization
under orientation "minus" flips, and applying it twice returns the original
pair — the allele complement is an involution. -/
theorem flip_minus_involutive (a b : String)
    (ha : a ∈ ["A", "T", "C", "G"]) (hb : b ∈ ["A", "T", "C", "G"]) :
    ∃ fr : FlipResult,
      flip_alleles ("(" ++ a ++ ";" ++ b ++ ")") "minus" = some fr ∧
      fr.flipped = true ∧
      (flip_alleles fr.genotype "minus").map FlipResult.genotype =
        some ("(" ++ a ++ ";" ++ b ++ ")") := by
  fin_cases ha <;> fin_cases hb <;> exact ⟨_, rfl, rfl, rfl⟩

theorem flip_minus_involutive_witness :
    ∃ fr : FlipResult,
      flip_alleles ("(" ++ "A" ++ ";" ++ "G" ++ ")") "minus" = some fr ∧
      fr.flipped = true ∧
      (flip_alleles fr.genotype "minus").map FlipResult.genotype =
        some ("(" ++ "A" ++ ";" ++ "G" ++ ")") :=
  flip_minus_involutive "A" "G" (by decide) (by decide)

/-- C2 counterexample: on the unknown sentinel `"(-;-)"` under orientation
"minus" the code reports `flipped = true` (its guard tests `genotype != ""`,
not the sentinel), refuting the claim that the sentinel is returned with
`was_flipped = false`. -/
theorem flip_sentinel_flipped_true :
    flip_alleles "(-;-)" "minus" = some { genotype := "(-;-)", flipped := true } ∧
    flip_alleles "(-;-)" "minus" ≠ some { genotype := "(-;-)", flipped := false } := by
  constructor
  · rfl
  · decide

/-- C2 (amended): under orientation "minus", every genotype whose stripped form
splits into exactly two `;`-separated parts — including the unknown sentinel
`"(-;-)"` — has each allele complemented (A↔T, C↔G, others unchanged) and is
reported with `was_flipped = true`; only the empty genotype is returned
unchanged with `was_flipped = false`. -/
theorem flip_minus_flag_spec (g : String) (hne : g ≠ "")
    (h2 : (splitSemi (stripParens g)).length = 2) :
    (∃ a b, splitSemi (stripParens g) = [a, b] ∧
      flip_alleles g "minus" =
        some { genotype := "(" ++ complementAllele a ++ ";" ++ complementAllele b ++ ")",
               flipped := true }) ∧
    flip_alleles "" "minus" = some { genotype := "", flipped := false } ∧
    flip_alleles "(-;-)" "minus" = some { genotype := "(-;-)", flipped := true } := by
  refine ⟨?_, rfl, rfl⟩
  rcases hsp : splitSemi (stripParens g) with _ | ⟨a, _ | ⟨b, _ | ⟨c, t⟩⟩⟩ <;>
    simp [hsp] at h2
  refine ⟨a, b, rfl, ?_⟩
  rw [flip_alleles, if_pos ⟨rfl, hne⟩, hsp]

theorem flip_minus_flag_spec_witness :
    (∃ a b, splitSemi (stripParens "(A;G)") = [a, b] ∧
      flip_alleles "(A;G)" "minus" =
        some { genotype := "(" ++ complementAllele a ++ ";" ++ complementAllele b ++ ")",
               flipped := true }) ∧
    flip_alleles "" "minus" = some { genotype := "", flipped := false } ∧
    flip_alleles "(-;-)" "minus" = some { genotype := "(-;-)", flipped := true } :=
  flip_minus_flag_spec "(A;G)" (by decide) (by decide)

/-! ### Enrichment classifier (data_crawler.py lines 453-610) -/

/-- `SNPCrawl.common_words` (lines 35-44). -/
def common_words : List String :=
  ["common", "very common", "most common", "normal", "average",
   "miscall in ancestry", "ancestry miscall", "miscall by ancestry"]

/-- `SNPCrawl.is_interesting` (lines 496-502):
`len(variation) > 2 and not variation[2].lower().startswith(tuple(common_words))`. -/
def is_interesting (variation : List String) : Bool :=
  decide (2 < variation.length) &&
    !(common_words.any fun w => startsWithStr (toLowerStr (variation.getD 2 "")) w)

/-- `SNPCrawl.is_uncommon` (lines 504-514) for an rsid present in
`enriched_snps` (which `create_list` guarantees by the assignment at line 529);
`enriched_genotype` is `enriched_snps[rsid.lower()]`.  On an empty variation
row, `variation[0]` raises `IndexError`, which `create_list` catches and treats
as not uncommon. -/
def is_uncommon (enriched_genotype : String) (variation : List String) : Bool :=
  match variation with
  | [] => false
  | g :: _ =>
    g == enriched_genotype &&
    decide (2 < variation.length) &&
    !(common_words.any fun w => startsWithStr (toLowerStr (variation.getD 2 "")) w) &&
    !(inStr "common in clinvar" (toLowerStr (variation.getD 2 "")))

/-- The `interesting_snp` fold of `create_list` (lines 553-562): true iff some
variation row is interesting. -/
def interesting_snp (variations : List (List String)) : Bool :=
  variations.any is_interesting

/-- The `uncommon_snp` fold of `create_list` (lines 564-573). -/
def uncommon_snp (enriched_genotype : String) (variations : List (List String)) : Bool :=
  variations.any (is_uncommon enriched_genotype)

/-- `SNPCrawl.format_cell` (lines 483-494) for an rsid present in
`enriched_snps`.  On an empty row `variation[0]` raises; `create_list` catches
the error and drops the row from the formatted list (`none`). -/
def format_cell (enriched_genotype : String) (variation : List String) : Option String :=
  match variation with
  | [] => none
  | g :: _ =>
    if enriched_genotype == g then some ("<b>" ++ joinSep " " variation ++ "</b>")
    else some (joinSep " " variation)

structure Entry where
  Name : String
  Description : String
  Genotype : String
  Variations : String
  StabilizedOrientation : String
  IsInteresting : String
  IsUncommon : String
  deriving DecidableEq

/-- `SNPCrawl.create_entry` (lines 453-481) for an rsid present in
`enriched_snps` (always the case inside `create_list`):
`personal_genotype` is `personal_snps[rsid.lower()]` and `enriched_genotype`
is `enriched_snps[rsid.lower()]`. -/
def create_entry (rsid description : String) (variations : List String)
    (stabilized_orientation personal_genotype enriched_genotype : String)
    (is_flipped is_int is_unc : Bool) : Entry :=
  { Name := rsid
    Description := description
    Genotype :=
      if is_flipped then
        personal_genotype ++ "<br><i>flipped<br>" ++ enriched_genotype ++ "</i>"
      else personal_genotype
    Variations := joinSep "<br>" variations
    StabilizedOrientation := stabilized_orientation
    IsInteresting := if is_int then "Yes" else "No"
    IsUncommon := if is_unc then "Yes" else "No" }

/-- The reference-store record shape produced by the crawler
(`{"Description": ..., "Variations": ..., "StabilizedOrientation": ...}`). -/
structure AnnRecord where
  Description : String
  Variations : List (List String)
  StabilizedOrientation : String
  deriving DecidableEq

/-- One iteration of `SNPCrawl.create_list` (lines 522-597) for an `rsid`
present in the personal store whose reference record carries the
`StabilizedOrientation` key.  `enriched_snps[rsid]` is first set to the
personal genotype (line 529) and then overwritten by `flip_alleles`; when
`flip_alleles` raises (`none`), the handler at lines 540-542 falls back to the
unflipped genotype and `enriched_snps` keeps the line-529 value. -/
def process_record (rsid personal_genotype : String) (values : AnnRecord) : Entry :=
  let flip? := flip_alleles personal_genotype values.StabilizedOrientation
  let enriched :=
    match flip? with
    | some fr => fr.genotype
    | none => personal_genotype
  let flipped :=
    match flip? with
    | some fr => fr.flipped
    | none => false
  create_entry rsid values.Description
    (values.Variations.filterMap (format_cell enriched))
    values.StabilizedOrientation personal_genotype enriched flipped
    (interesting_snp values.Variations)
    (uncommon_snp enriched values.Variations)

/-! ### C1 -/

/-- The reference record of the spec's end-to-end scenario for `rs123`. -/
def c1_values : AnnRecord :=
  { Description := "d"
    Variations := [["(T;C)", "common", "n"], ["(A;G)", "rare finding", "x"]]
    StabilizedOrientation := "minus" }

/-- The entry produced by the enrichment run for personal store
`{"rs123": "(A;G)"}` and the scenario reference record. -/
def c1_entry : Entry :=
  process_record "rs123" "(A;G)" c1_values

/-- C1 counterexample: in the end-to-end scenario the produced record has
`IsInteresting = "Yes"` and `IsUncommon = "Yes"`, refuting the claimed
`isInteresting = False` and `isUncommon = False`. -/
theorem scenario_rs123_flags_not_no :
    ¬ (c1_entry.IsInteresting = "No" ∧ c1_entry.IsUncommon = "No") := by
  decide

/-- C1 (amended): in the end-to-end scenario the genotype is normalized to
`(T;C)` and the matching (bolded) row is `["(T;C)","common","n"]`, but the
produced record has `isInteresting = True` and `isUncommon = True`, because the
significance test reads the third cell of each row (`"n"` / `"x"`), which does
not begin with any common phrase. -/
theorem scenario_rs123_enrichment :
    (flip_alleles "(A;G)" "minus").map FlipResult.genotype = some "(T;C)" ∧
    format_cell "(T;C)" ["(T;C)", "common", "n"] = some "<b>(T;C) common n</b>" ∧
    format_cell "(T;C)" ["(A;G)", "rare finding", "x"] = some "(A;G) rare finding x" ∧
    c1_entry.IsInteresting = "Yes" ∧ c1_entry.IsUncommon = "Yes" := by
  decide

/-! ### C7 -/

theorem is_uncommon_implies_is_interesting (e : String) (v : List String)
    (h : is_uncommon e v = true) : is_interesting v = true := by
  match v with
  | [] => simp [is_uncommon] at h
  | g :: rest =>
    simp only [is_uncommon, Bool.and_eq_true] at h
    simp only [is_interesting, Bool.and_eq_true]
    exact ⟨h.1.1.2, h.1.2⟩

/-- C7: for every enriched record produced by one enrichment-run iteration, if
its `IsInteresting` flag is "No" then its `IsUncommon` flag is also "No" —
being uncommon requires a row that fails the common-phrase test, which already
makes the record interesting. -/
theorem entry_uncommon_implies_interesting (rsid personal : String)
    (values : AnnRecord)
    (h : (process_record rsid personal values).IsInteresting = "No") :
    (process_record rsid personal values).IsUncommon = "No" := by
  simp only [process_record, create_entry] at h ⊢
  by_cases hint : interesting_snp values.Variations
  · rw [if_pos hint] at h
    exact absurd h (by decide)
  · have hint' : interesting_snp values.Variations = false := by
      simpa using hint
    have hunc : ∀ e, uncommon_snp e values.Variations = false := by
      intro e
      rcases hu : uncommon_snp e values.Variations with _ | _
      · rfl
      · exfalso
        rcases List.any_eq_true.mp hu with ⟨v, hv, hvu⟩
        have : interesting_snp values.Variations = true :=
          List.any_eq_true.mpr ⟨v, hv, is_uncommon_implies_is_interesting _ _ hvu⟩
        rw [hint'] at this
        exact Bool.false_ne_true this
    rw [hunc]
    simp

theorem entry_uncommon_implies_interesting_witness :
    (process_record "rs1" "(A;A)"
      { Description := "", Variations := [["(A;A)", "1", "common"]],
        StabilizedOrientation := "plus" }).IsUncommon = "No" :=
  entry_uncommon_implies_interesting "rs1" "(A;A)"
    { Description := "", Variations := [["(A;A)", "1", "common"]],
      StabilizedOrientation := "plus" } (by decide)

/-! ### Page parsing (data_crawler.py lines 305-359 and 393-421) -/

def isSpaceChar (c : Char) : Bool :=
  c == ' ' || c == '\t' || c == '\n' || c == '\r' || c == '\x0b' || c == '\x0c'

/-- Python `str.strip()` (whitespace). -/
def stripWS (s : String) : String :=
  String.mk (((s.data.dropWhile isSpaceChar).reverse.dropWhile isSpaceChar).reverse)

/-- `SNPCrawl.table_to_list` (lines 393-421): a table is the list of its rows,
a row the list of its td-cell texts.  Cells are stripped, empty cells dropped,
and only rows keeping at least one non-empty cell are emitted (a row without
td cells yields no entry either, which the same filter covers). -/
def table_to_list (rows : List (List String)) : List (List String) :=
  (rows.map fun r => (r.map stripWS).filter fun c => !(c == "")).filter
    fun r => !r.isEmpty

/-- The relevant outcomes of the BeautifulSoup `find` calls on one fetched
page: the `sortable smwtable` variations table, the styled description table,
the td texts of the row enclosing an `Rs_StabilizedOrientation` td, and the
td texts of the row enclosing a titled `StabilizedOrientation` link. -/
structure Page where
  sortable : Option (List (List String))
  descTable : Option (List (List String))
  orientTd : Option (List String)
  orientLink : Option (List String)
  deriving DecidableEq

/-- Orientation from an enclosing row (lines 319-326): `plus` is written first
and `minus` second, so a row containing both ends as "minus". -/
def orientFromRow (row : List String) : String :=
  if row.contains "minus" then "minus"
  else if row.contains "plus" then "plus"
  else ""

/-- The orientation finder (lines 318-336): the explicit td marker first, the
titled link as fallback, otherwise the empty legacy value. -/
def findOrient (p : Page) : String :=
  match p.orientTd with
  | some row => orientFromRow row
  | none =>
    match p.orientLink with
    | some row => orientFromRow row
    | none => ""

def addVariations (r : AnnRecord) (p : Page) : AnnRecord :=
  match p.sortable with
  | some t => { r with Variations := (table_to_list t).drop 1 }
  | none => r

/-- The parse section of `grab_table` (lines 305-359): the record is
initialized with empty fields, orientation is filled in, then the description
(`d1[0][0]`, which raises `IndexError` when the parsed description table is
empty — the `Bool` component records that the section raised and the
variations step was skipped), then the variations table (header row
dropped). -/
def parse_page (p : Page) : AnnRecord × Bool :=
  let base : AnnRecord :=
    { Description := "", Variations := [], StabilizedOrientation := findOrient p }
  match p.descTable with
  | some dt =>
    match table_to_list dt with
    | [] => (base, true)
    | row :: _ =>
      match row with
      | [] => (base, true)
      | c :: _ => (addVariations { base with Description := c } p, false)
  | none => (addVariations base p, false)

/-! ### C3 -/

/-- A page whose description block has one row with a single empty cell, next
to a perfectly well-formed variations table. -/
def c3_page : Page :=
  { sortable := some [["Geno", "Mag", "Summary"], ["(A;A)", "0", "ok"]]
    descTable := some [[""]]
    orientTd := none
    orientLink := none }

/-- C3 counterexample: on a page whose description block has no non-empty
cell, the parse section raises (`d1[0][0]` is an `IndexError`) and the record
is aborted with `Variations = []` even though the sortable table is present
and well-formed — refuting "never raises / degrades the field instead". -/
theorem parse_empty_description_block_raises :
    (parse_page c3_page).2 = true ∧
    (parse_page c3_page).1.Variations = [] ∧
    c3_page.sortable ≠ none := by
  decide

theorem table_to_list_rows_ne_nil (rows : List (List String)) :
    ∀ row ∈ table_to_list rows, ¬row.isEmpty := by
  intro row hrow
  have := (List.mem_filter.mp hrow).2
  simpa using this

/-- C3 (amended): a page lacking the sortable table yields `Variations = []`
and a page lacking the description block yields `Description = ""` without
raising; but a description block whose rows contain no non-empty cells makes
the parse section raise, aborting the record (its fields stay at their
defaults, the variations table is never read); with any non-degenerate
description block the section does not raise. -/
theorem parse_degrades_spec (p : Page) :
    (p.sortable = none → (parse_page p).1.Variations = []) ∧
    (p.descTable = none →
      (parse_page p).1.Description = "" ∧ (parse_page p).2 = false) ∧
    ((parse_page p).2 = true →
      p.descTable ≠ none ∧
      (parse_page p).1 =
        { Description := "", Variations := [],
          StabilizedOrientation := findOrient p }) ∧
    (∀ dt, p.descTable = some dt → table_to_list dt ≠ [] →
      (parse_page p).2 = false) := by
  refine ⟨?_, ?_, ?_, ?_⟩
  · intro hs
    rcases hd : p.descTable with _ | dt <;>
      simp [parse_page, hd, addVariations, hs]
    rcases ht : table_to_list dt with _ | ⟨row, rest⟩
    · simp
    · rcases row with _ | ⟨c, cs⟩ <;> simp [addVariations, hs]
  · intro hd
    simp [parse_page, hd, addVariations]
    rcases hs : p.sortable with _ | t <;> simp
  · intro hraised
    rcases hd : p.descTable with _ | dt
    · simp [parse_page, hd, addVariations] at hraised
    · refine ⟨by simp [hd], ?_⟩
      rcases ht : table_to_list dt with _ | ⟨row, rest⟩
      · simp [parse_page, hd, ht]
      · have hne := table_to_list_rows_ne_nil dt row (ht ▸ List.mem_cons_self row rest)
        rcases row with _ | ⟨c, cs⟩
        · simp at hne
        · simp [parse_page, hd, ht, addVariations] at hraised
  · intro dt hd htne
    rcases ht : table_to_list dt with _ | ⟨row, rest⟩
    · exact absurd ht htne
    · have hne := table_to_list_rows_ne_nil dt row (ht ▸ List.mem_cons_self row rest)
      rcases row with _ | ⟨c, cs⟩
      · simp at hne
      · simp [parse_page, hd, ht, addVariations]

/-- A page with neither a description block nor a variations table. -/
def c3_bare_page : Page :=
  { sortable := none, descTable := none, orientTd := none, orientLink := none }

theorem parse_degrades_spec_witness :
    (parse_page c3_bare_page).1.Variations = [] ∧
    (parse_page c3_bare_page).1.Description = "" ∧
    (parse_page c3_bare_page).2 = false :=
  ⟨(parse_degrades_spec c3_bare_page).1 rfl,
   (parse_degrades_spec c3_bare_page).2.1 rfl⟩

/-! ### Retry loops (data_crawler.py lines 167-194 and 298-391) -/

/-- Classified outcome of one HTTP attempt, per the branches both retry loops
distinguish: success, 404, 429, and 502/503/504. -/
inductive Resp where
  | ok (r : AnnRecord)
  | notFound
  | rateLimited
  | serverErr
  deriving DecidableEq

/-- What one run of a retry loop did: attempts made, sleeps performed
in order, and the record it produced (none = abandoned / not found). -/
structure FetchTrace where
  attempts : Nat
  sleeps : List Nat
  result : Option AnnRecord
  deriving DecidableEq

/-- The `for attempt in range(MAX_RETRIES)` loop of `grab_table_async`
(lines 167-194), recursing on the remaining attempts: 404 is terminal, 429 and
502/503/504 sleep `RETRY_DELAY * 2 ** attempt` when another attempt remains
and abandon otherwise. -/
def grab_async_loop (d : Nat) (resp : Nat → Resp) : Nat → Nat → FetchTrace
  | _, 0 => { attempts := 0, sleeps := [], result := none }
  | attempt, remaining + 1 =>
    match resp attempt with
    | .ok r => { attempts := 1, sleeps := [], result := some r }
    | .notFound => { attempts := 1, sleeps := [], result := none }
    | .rateLimited =>
      if remaining = 0 then { attempts := 1, sleeps := [], result := none }
      else
        let t := grab_async_loop d resp (attempt + 1) remaining
        { attempts := t.attempts + 1, sleeps := d * 2 ^ attempt :: t.sleeps,
          result := t.result }
    | .serverErr =>
      if remaining = 0 then { attempts := 1, sleeps := [], result := none }
      else
        let t := grab_async_loop d resp (attempt + 1) remaining
        { attempts := t.attempts + 1, sleeps := d * 2 ^ attempt :: t.sleeps,
          result := t.result }

def grab_table_async_trace (maxRetries d : Nat) (resp : Nat → Resp) : FetchTrace :=
  grab_async_loop d resp 0 maxRetries

/-- The retry loop of the sequential `grab_table` (lines 298-391): 404 is
terminal, 429 sleeps `RETRY_DELAY * (attempt + 1)` (line 371), and 502/503/504
fall into the generic `HTTPError` branch sleeping a flat `RETRY_DELAY`
(line 377). -/
def grab_sync_loop (d : Nat) (resp : Nat → Resp) : Nat → Nat → FetchTrace
  | _, 0 => { attempts := 0, sleeps := [], result := none }
  | attempt, remaining + 1 =>
    match resp attempt with
    | .ok r => { attempts := 1, sleeps := [], result := some r }
    | .notFound => { attempts := 1, sleeps := [], result := none }
    | .rateLimited =>
      if remaining = 0 then { attempts := 1, sleeps := [], result := none }
      else
        let t := grab_sync_loop d resp (attempt + 1) remaining
        { attempts := t.attempts + 1, sleeps := d * (attempt + 1) :: t.sleeps,
          result := t.result }
    | .serverErr =>
      if remaining = 0 then { attempts := 1, sleeps := [], result := none }
      else
        let t := grab_sync_loop d resp (attempt + 1) remaining
        { attempts := t.attempts + 1, sleeps := d :: t.sleeps,
          result := t.result }

def grab_table_sync_trace (maxRetries d : Nat) (resp : Nat → Resp) : FetchTrace :=
  grab_sync_loop d resp 0 maxRetries

/-! ### C6 -/

/-- C6: with `max_retries = 3` and three consecutive 429 responses, the
fetcher makes exactly 3 attempts, abandons with no record, and its two
inter-attempt delays follow `base_delay * 2 ^ attempt` with the counter
starting at 0 — so each successive delay is double the previous.  The
sequential loop's linear schedule `d * (attempt + 1)` realizes the same two
delays here. -/
theorem rate_limited_three_attempts (d : Nat) :
    grab_table_async_trace 3 d (fun _ => Resp.rateLimited) =
      { attempts := 3, sleeps := [d * 2 ^ 0, d * 2 ^ 1], result := none } ∧
    grab_table_sync_trace 3 d (fun _ => Resp.rateLimited) =
      { attempts := 3, sleeps := [d * 2 ^ 0, d * 2 ^ 1], result := none } ∧
    2 * (d * 2 ^ 0) ≤ d * 2 ^ 1 := by
  refine ⟨?_, ?_, ?_⟩
  · simp [grab_table_async_trace, grab_async_loop]
  · simp [grab_table_sync_trace, grab_sync_loop]
  · ring_nf
    omega

/-! ### Crawl passes (data_crawler.py lines 67-97 and 99-162) -/

/-- Key lookup in an insertion-ordered association list (a Python dict). -/
def lookupKey {β : Type} : List (String × β) → String → Option β
  | [], _ => none
  | (k', v) :: rest, k => if k' = k then some v else lookupKey rest k

/-- Python `k in d.keys()`. -/
def containsKey {β : Type} (l : List (String × β)) (k : String) : Bool :=
  (lookupKey l k).isSome

/-- Python dict assignment `d[k] = v`: replace in place when the key exists,
append otherwise. -/
def setKey {β : Type} : List (String × β) → String → β → List (String × β)
  | [], k, v => [(k, v)]
  | (k', v') :: rest, k, v =>
    if k' = k then (k, v) :: rest else (k', v') :: setKey rest k v

/-- The fresh record deposited at the start of every parse
(`self.rsid_info[rsid.lower()] = {...}`, line 202 / line 305). -/
def emptyRecord : AnnRecord :=
  { Description := "", Variations := [], StabilizedOrientation := "" }

/-- One crawl iteration for one rsid (`grab_table` lines 293-294,
`grab_table_async` lines 160-162): skip without touching the network when the
rsid is already a key of the store, otherwise perform one fetch (counted).
`net rsid = none` means no attempt reached the store write (404, or network
failure on every attempt) and nothing is stored; `net rsid = some r` means an
attempt reached the store write at line 202 / line 305 and `r` is the record
the parse would leave stored under the lower-cased rsid.  For a non-lowercase
rsid every such attempt raises `KeyError` at the first raw-key access (at the
latest the unconditional read at line 238 / line 340) before the fresh record
is modified, so the deposit is always `emptyRecord`; the definition enforces
this, making unrealizable outcomes unrepresentable. -/
def crawl_step (net : String → Option AnnRecord)
    (store : List (String × AnnRecord)) (rsid : String) :
    List (String × AnnRecord) × Nat :=
  if containsKey store rsid then (store, 0)
  else
    match net rsid with
    | some r =>
      (setKey store (toLowerStr rsid)
        (if toLowerStr rsid = rsid then r else emptyRecord), 1)
    | none => (store, 1)

/-- One crawl pass over the rsids in a given order: the sequential mode visits
them in personal-store order, the concurrent mode in an arbitrary completion
order.  Returns the final store and the number of network fetches. -/
def crawl (net : String → Option AnnRecord) :
    List (String × AnnRecord) → List String → List (String × AnnRecord) × Nat
  | store, [] => (store, 0)
  | store, rsid :: rest =>
    let s := crawl_step net store rsid
    let r := crawl net s.1 rest
    (r.1, s.2 + r.2)

/-! ### C8 -/

/-- C8: when every target rsid is already a key of the reference store, a
crawl pass — in any visiting order, hence in both the sequential and the
concurrent mode — performs zero network fetches and returns the store
unchanged. -/
theorem crawl_idempotent_on_fetched (net : String → Option AnnRecord)
    (store : List (String × AnnRecord)) (rsids : List String)
    (h : ∀ r ∈ rsids, containsKey store r = true) :
    crawl net store rsids = (store, 0) := by
  induction rsids with
  | nil => rfl
  | cons a t ih =>
    have ha := h a (List.mem_cons_self a t)
    simp [crawl, crawl_step, ha, ih fun r hr => h r (List.mem_cons_of_mem a hr)]

/-- A one-record reference store already holding `rs1`. -/
def c8_store : List (String × AnnRecord) :=
  [("rs1", { Description := "d", Variations := [], StabilizedOrientation := "plus" })]

theorem crawl_idempotent_on_fetched_witness :
    crawl (fun _ => none) c8_store ["rs1"] = (c8_store, 0) :=
  crawl_idempotent_on_fetched (fun _ => none) c8_store ["rs1"] (by decide)

/-! ### C4: backoff schedules and order-independence of the crawl -/

/-- C4 counterexample: the two modes do not share a delay schedule — on a
server error (502/503/504) at attempt 1 with `RETRY_DELAY = 5`, the sequential
loop waits 5 s (flat) while the concurrent loop waits 10 s (exponential). -/
theorem sync_async_backoff_differs :
    (grab_table_sync_trace 3 5 (fun _ => Resp.serverErr)).sleeps = [5, 5] ∧
    (grab_table_async_trace 3 5 (fun _ => Resp.serverErr)).sleeps = [5, 10] ∧
    ([5, 5] : List Nat) ≠ [5, 10] := by
  decide

theorem toNat_toLower_of_upper (c : Char) (h : c.toNat ≥ 65 ∧ c.toNat ≤ 90) :
    (Char.toLower c).toNat = c.toNat + 32 := by
  have hv : (c.toNat + 32).isValidChar := Or.inl (by omega)
  rw [Char.toLower]
  rw [if_pos h, Char.ofNat, dif_pos hv]
  simp [Char.ofNatAux, Char.toNat]
  rfl

theorem toLower_toLower (c : Char) :
    Char.toLower (Char.toLower c) = Char.toLower c := by
  by_cases h : c.toNat ≥ 65 ∧ c.toNat ≤ 90
  · have ht := toNat_toLower_of_upper c h
    conv_lhs => rw [Char.toLower]
    rw [if_neg (by omega)]
  · have hfix : Char.toLower c = c := by rw [Char.toLower, if_neg h]
    rw [hfix]
    exact hfix

theorem toLowerStr_idem (s : String) : toLowerStr (toLowerStr s) = toLowerStr s := by
  have : ∀ l : List Char,
      (l.map Char.toLower).map Char.toLower = l.map Char.toLower := by
    intro l
    induction l with
    | nil => rfl
    | cons c t ih => simp [toLower_toLower c, ih]
  simp [toLowerStr, this]

theorem lookupKey_setKey {β : Type} (l : List (String × β)) (k k' : String) (v : β) :
    lookupKey (setKey l k v) k' = if k = k' then some v else lookupKey l k' := by
  induction l with
  | nil =>
    by_cases h : k = k' <;> simp [setKey, lookupKey, h]
  | cons p t ih =>
    obtain ⟨pk, pv⟩ := p
    by_cases hpk : pk = k
    · subst hpk
      by_cases hk : pk = k' <;> simp [setKey, lookupKey, hk]
    · have hsk : setKey ((pk, pv) :: t) k v = (pk, pv) :: setKey t k v := by
        simp [setKey, hpk]
      rw [hsk]
      by_cases hk : pk = k'
      · subst hk
        have hkk : ¬k = pk := fun hcon => hpk hcon.symm
        simp [lookupKey, hkk]
      · simp [lookupKey, hk, ih]

theorem containsKey_setKey {β : Type} (l : List (String × β)) (k k' : String) (v : β) :
    containsKey (setKey l k v) k' = (decide (k = k') || containsKey l k') := by
  by_cases h : k = k' <;> simp [containsKey, lookupKey_setKey, h]

/-- Two stores are the same finite map. -/
def storeEquiv (s s' : List (String × AnnRecord)) : Prop :=
  ∀ k, lookupKey s k = lookupKey s' k

theorem containsKey_eq_of_equiv {s s' : List (String × AnnRecord)}
    (h : storeEquiv s s') (k : String) : containsKey s k = containsKey s' k := by
  simp [containsKey, h k]

theorem setKey_equiv {s s' : List (String × AnnRecord)} (h : storeEquiv s s')
    (k : String) (v : AnnRecord) : storeEquiv (setKey s k v) (setKey s' k v) := by
  intro k'
  rw [lookupKey_setKey, lookupKey_setKey, h k']

theorem crawl_step_equiv (net : String → Option AnnRecord)
    {s s' : List (String × AnnRecord)} (h : storeEquiv s s') (rsid : String) :
    storeEquiv (crawl_step net s rsid).1 (crawl_step net s' rsid).1 := by
  unfold crawl_step
  rw [containsKey_eq_of_equiv h rsid]
  by_cases hc : containsKey s' rsid = true
  · simpa [hc] using h
  · simp only [Bool.not_eq_true] at hc
    cases hn : net rsid with
    | some r =>
      simpa [hc, hn] using
        setKey_equiv h (toLowerStr rsid)
          (if toLowerStr rsid = rsid then r else emptyRecord)
    | none => simpa [hc, hn] using h

theorem crawl_equiv (net : String → Option AnnRecord)
    {s s' : List (String × AnnRecord)} (h : storeEquiv s s') (ids : List String) :
    storeEquiv (crawl net s ids).1 (crawl net s' ids).1 := by
  induction ids generalizing s s' with
  | nil => exact h
  | cons a t ih => exact ih (crawl_step_equiv net h a)

theorem crawl_step_contains (net : String → Option AnnRecord)
    (st : List (String × AnnRecord)) (x : String)
    (hc : containsKey st x = true) : (crawl_step net st x).1 = st := by
  unfold crawl_step
  rw [if_pos hc]

theorem crawl_step_none (net : String → Option AnnRecord)
    (st : List (String × AnnRecord)) (x : String)
    (hn : net x = none) : (crawl_step net st x).1 = st := by
  unfold crawl_step
  by_cases hc : containsKey st x = true
  · rw [if_pos hc]
  · simp only [Bool.not_eq_true] at hc
    simp [hc, hn]

theorem crawl_step_fetch (net : String → Option AnnRecord)
    (st : List (String × AnnRecord)) (x : String) (r : AnnRecord)
    (hc : containsKey st x = false) (hn : net x = some r) :
    (crawl_step net st x).1 =
      setKey st (toLowerStr x) (if toLowerStr x = x then r else emptyRecord) := by
  unfold crawl_step
  simp [hc, hn]

/-- Two crawl steps commute (as finite maps) in every case: distinct target
keys commute outright; when the two rsids share a lower-cased key, either one
is the lower-casing of the other — then the later deposit to that key wins on
one side while the other side skips, giving the same value — or both are
non-lowercase and both deposit the same `emptyRecord`. -/
theorem crawl_step_swap (net : String → Option AnnRecord)
    (s : List (String × AnnRecord)) (a b : String) :
    storeEquiv (crawl_step net (crawl_step net s a).1 b).1
      (crawl_step net (crawl_step net s b).1 a).1 := by
  by_cases hab : a = b
  · subst hab
    exact fun k => rfl
  by_cases ha : containsKey s a = true <;> by_cases hb : containsKey s b = true
  · have e1 := crawl_step_contains net s a ha
    have e2 := crawl_step_contains net s b hb
    intro k
    rw [e1, e2, e1]
  · have e1 := crawl_step_contains net s a ha
    have hb' : containsKey s b = false := by simpa using hb
    have ha2 : containsKey (crawl_step net s b).1 a = true := by
      cases hn : net b with
      | none =>
        rw [crawl_step_none net s b hn]
        exact ha
      | some rb =>
        rw [crawl_step_fetch net s b rb hb' hn, containsKey_setKey]
        simp [ha]
    have e2 := crawl_step_contains net (crawl_step net s b).1 a ha2
    intro k
    rw [e1, e2]
  · have e1 := crawl_step_contains net s b hb
    have ha' : containsKey s a = false := by simpa using ha
    have hb2 : containsKey (crawl_step net s a).1 b = true := by
      cases hn : net a with
      | none =>
        rw [crawl_step_none net s a hn]
        exact hb
      | some ra =>
        rw [crawl_step_fetch net s a ra ha' hn, containsKey_setKey]
        simp [hb]
    have e2 := crawl_step_contains net (crawl_step net s a).1 b hb2
    intro k
    rw [e2, e1]
  · have ha' : containsKey s a = false := by simpa using ha
    have hb' : containsKey s b = false := by simpa using hb
    cases hna : net a with
    | none =>
      have e1 := crawl_step_none net s a hna
      intro k
      rw [e1, crawl_step_none net (crawl_step net s b).1 a hna]
    | some ra =>
      cases hnb : net b with
      | none =>
        have e2 := crawl_step_none net s b hnb
        intro k
        rw [e2, crawl_step_none net (crawl_step net s a).1 b hnb]
      | some rb =>
        have e1 := crawl_step_fetch net s a ra ha' hna
        have e2 := crawl_step_fetch net s b rb hb' hnb
        by_cases hAb : toLowerStr a = b
        · have hBA : toLowerStr b = toLowerStr a := by
            rw [← hAb, toLowerStr_idem]
          have hcb1 : containsKey (crawl_step net s a).1 b = true := by
            rw [e1, containsKey_setKey]
            simp [hAb]
          have eL := crawl_step_contains net (crawl_step net s a).1 b hcb1
          have hBa : ¬toLowerStr b = a := by
            intro h
            exact hab (by rw [← h, hBA, hAb])
          have hca2 : containsKey (crawl_step net s b).1 a = false := by
            rw [e2, containsKey_setKey]
            simp [hBa, ha']
          have eR := crawl_step_fetch net (crawl_step net s b).1 a ra hca2 hna
          intro k
          rw [eL, e1, eR, e2, hBA]
          rw [lookupKey_setKey, lookupKey_setKey, lookupKey_setKey]
          by_cases hk : toLowerStr a = k <;> simp [hk]
        · have hcb1 : containsKey (crawl_step net s a).1 b = false := by
            rw [e1, containsKey_setKey]
            simp [hAb, hb']
          have eL := crawl_step_fetch net (crawl_step net s a).1 b rb hcb1 hnb
          by_cases hBa : toLowerStr b = a
          · have hAB : toLowerStr a = toLowerStr b := by
              rw [← hBa, toLowerStr_idem]
            have hca2 : containsKey (crawl_step net s b).1 a = true := by
              rw [e2, containsKey_setKey]
              simp [hBa]
            have eR := crawl_step_contains net (crawl_step net s b).1 a hca2
            intro k
            rw [eL, e1, eR, e2, hAB]
            rw [lookupKey_setKey, lookupKey_setKey, lookupKey_setKey]
            by_cases hk : toLowerStr b = k <;> simp [hk]
          · have hca2 : containsKey (crawl_step net s b).1 a = false := by
              rw [e2, containsKey_setKey]
              simp [hBa, ha']
            have eR := crawl_step_fetch net (crawl_step net s b).1 a ra hca2 hna
            by_cases hAB : toLowerStr a = toLowerStr b
            · have hua : ¬toLowerStr a = a := by
                intro h
                exact hBa (by rw [← hAB, h])
              have hub : ¬toLowerStr b = b := by
                intro h
                exact hAb (by rw [hAB, h])
              intro k
              rw [eL, e1, eR, e2, if_neg hua, if_neg hub, hAB]
            · intro k
              rw [eL, e1, eR, e2]
              rw [lookupKey_setKey, lookupKey_setKey, lookupKey_setKey,
                lookupKey_setKey]
              by_cases hka : toLowerStr a = k <;> by_cases hkb : toLowerStr b = k
              · exact absurd (hka.trans hkb.symm) hAB
              · simp [hka, hkb]
              · simp [hka, hkb]
              · simp [hka, hkb]

theorem grab_sync_loop_429_sleeps (d : Nat) :
    ∀ rem att, (grab_sync_loop d (fun _ => Resp.rateLimited) att rem).sleeps =
      (List.range (rem - 1)).map fun n => d * (att + n + 1) := by
  intro rem
  induction rem with
  | zero => intro att; rfl
  | succ r ih =>
    intro att
    cases r with
    | zero => rfl
    | succ q =>
      have hstep :
          (grab_sync_loop d (fun _ => Resp.rateLimited) att (q + 1 + 1)).sleeps =
            d * (att + 1) ::
              (grab_sync_loop d (fun _ => Resp.rateLimited) (att + 1) (q + 1)).sleeps := by
        simp [grab_sync_loop]
      have htail : List.map (fun n => d * (att + 1 + n + 1)) (List.range q) =
          List.map ((fun n => d * (att + n + 1)) ∘ Nat.succ) (List.range q) :=
        List.map_congr_left fun n _ => by
          show d * (att + 1 + n + 1) = d * (att + Nat.succ n + 1)
          rw [show att + 1 + n = att + Nat.succ n by omega]
      rw [hstep, ih (att + 1)]
      rw [show q + 1 + 1 - 1 = q + 1 from rfl, show q + 1 - 1 = q from rfl]
      simp only [List.range_succ_eq_map, List.map_cons, List.map_map, Nat.add_zero]
      rw [← htail]

theorem grab_async_loop_429_sleeps (d : Nat) :
    ∀ rem att, (grab_async_loop d (fun _ => Resp.rateLimited) att rem).sleeps =
      (List.range (rem - 1)).map fun n => d * 2 ^ (att + n) := by
  intro rem
  induction rem with
  | zero => intro att; rfl
  | succ r ih =>
    intro att
    cases r with
    | zero => rfl
    | succ q =>
      have hstep :
          (grab_async_loop d (fun _ => Resp.rateLimited) att (q + 1 + 1)).sleeps =
            d * 2 ^ att ::
              (grab_async_loop d (fun _ => Resp.rateLimited) (att + 1) (q + 1)).sleeps := by
        simp [grab_async_loop]
      have htail : List.map (fun n => d * 2 ^ (att + 1 + n)) (List.range q) =
          List.map ((fun n => d * 2 ^ (att + n)) ∘ Nat.succ) (List.range q) :=
        List.map_congr_left fun n _ => by
          show d * 2 ^ (att + 1 + n) = d * 2 ^ (att + Nat.succ n)
          rw [show att + 1 + n = att + Nat.succ n by omega]
      rw [hstep, ih (att + 1)]
      rw [show q + 1 + 1 - 1 = q + 1 from rfl, show q + 1 - 1 = q from rfl]
      simp only [List.range_succ_eq_map, List.map_cons, List.map_map, Nat.add_zero]
      rw [← htail]

theorem grab_sync_loop_server_sleeps (d : Nat) :
    ∀ rem att, (grab_sync_loop d (fun _ => Resp.serverErr) att rem).sleeps =
      List.replicate (rem - 1) d := by
  intro rem
  induction rem with
  | zero => intro att; rfl
  | succ r ih =>
    intro att
    cases r with
    | zero => rfl
    | succ q =>
      have hstep :
          (grab_sync_loop d (fun _ => Resp.serverErr) att (q + 1 + 1)).sleeps =
            d :: (grab_sync_loop d (fun _ => Resp.serverErr) (att + 1) (q + 1)).sleeps := by
        simp [grab_sync_loop]
      rw [hstep, ih (att + 1)]
      rfl

theorem grab_async_loop_server_sleeps (d : Nat) :
    ∀ rem att, (grab_async_loop d (fun _ => Resp.serverErr) att rem).sleeps =
      (List.range (rem - 1)).map fun n => d * 2 ^ (att + n) := by
  intro rem
  induction rem with
  | zero => intro att; rfl
  | succ r ih =>
    intro att
    cases r with
    | zero => rfl
    | succ q =>
      have hstep :
          (grab_async_loop d (fun _ => Resp.serverErr) att (q + 1 + 1)).sleeps =
            d * 2 ^ att ::
              (grab_async_loop d (fun _ => Resp.serverErr) (att + 1) (q + 1)).sleeps := by
        simp [grab_async_loop]
      have htail : List.map (fun n => d * 2 ^ (att + 1 + n)) (List.range q) =
          List.map ((fun n => d * 2 ^ (att + n)) ∘ Nat.succ) (List.range q) :=
        List.map_congr_left fun n _ => by
          show d * 2 ^ (att + 1 + n) = d * 2 ^ (att + Nat.succ n)
          rw [show att + 1 + n = att + Nat.succ n by omega]
      rw [hstep, ih (att + 1)]
      rw [show q + 1 + 1 - 1 = q + 1 from rfl, show q + 1 - 1 = q from rfl]
      simp only [List.range_succ_eq_map, List.map_cons, List.map_map, Nat.add_zero]
      rw [← htail]

theorem succ_lt_two_pow : ∀ n : Nat, 2 ≤ n → n + 1 < 2 ^ n := by
  intro n
  induction n with
  | zero => intro h; omega
  | succ m ih =>
    intro h
    rcases Nat.lt_or_ge m 2 with hm | hm
    · have hm' : m = 1 := by omega
      subst hm'
      decide
    · have h1 := ih hm
      have h2 : 2 ^ (m + 1) = 2 * 2 ^ m := by ring
      omega

theorem crawl_perm (net : String → Option AnnRecord) :
    ∀ {ids ids' : List String}, ids.Perm ids' →
      ∀ s : List (String × AnnRecord),
        storeEquiv (crawl net s ids).1 (crawl net s ids').1 := by
  intro ids ids' hperm
  induction hperm with
  | nil =>
    intro s k
    rfl
  | cons x h ih =>
    intro s
    exact ih (crawl_step net s x).1
  | swap x y l =>
    intro s
    exact crawl_equiv net (crawl_step_swap net s y x) l
  | trans h12 h23 ih12 ih23 =>
    intro s k
    exact (ih12 s k).trans (ih23 s k)

/-- C4 (amended): the sequential and concurrent crawl modes do not share a
delay schedule.  Under repeated 429s the sequential loop sleeps
`RETRY_DELAY * (attempt + 1)` (linear) while the concurrent loop sleeps
`RETRY_DELAY * 2 ^ attempt` (exponential) — the two coincide exactly at
attempts 0 and 1 (hence over the whole schedule when `MAX_RETRIES = 3`); under
repeated server errors (502/503/504) the sequential loop sleeps a flat
`RETRY_DELAY`, strictly less than the concurrent delay from attempt 1 on.  The
two modes do produce the same final reference store for the same input modulo
visiting order: each fetch deposits under the lower-cased rsid, and a
non-lowercase rsid always aborts on the raw-key read, depositing the same
fresh empty record, so per-identifier outcomes are order-independent. -/
theorem sync_async_schedules :
    (∀ maxR d, (grab_table_sync_trace maxR d fun _ => Resp.rateLimited).sleeps =
      (List.range (maxR - 1)).map fun n => d * (n + 1)) ∧
    (∀ maxR d, (grab_table_async_trace maxR d fun _ => Resp.rateLimited).sleeps =
      (List.range (maxR - 1)).map fun n => d * 2 ^ n) ∧
    (∀ maxR d, (grab_table_sync_trace maxR d fun _ => Resp.serverErr).sleeps =
      List.replicate (maxR - 1) d) ∧
    (∀ maxR d, (grab_table_async_trace maxR d fun _ => Resp.serverErr).sleeps =
      (List.range (maxR - 1)).map fun n => d * 2 ^ n) ∧
    (∀ d n, 0 < d → (d * (n + 1) = d * 2 ^ n ↔ n ≤ 1)) ∧
    (∀ d n, 0 < d → 1 ≤ n → d < d * 2 ^ n) ∧
    (∀ (net : String → Option AnnRecord) (s : List (String × AnnRecord))
        (ids ids' : List String), ids.Perm ids' →
      ∀ k, lookupKey (crawl net s ids).1 k = lookupKey (crawl net s ids').1 k) := by
  refine ⟨?_, ?_, ?_, ?_, ?_, ?_, ?_⟩
  · intro maxR d
    rw [grab_table_sync_trace, grab_sync_loop_429_sleeps d maxR 0]
    exact List.map_congr_left fun n _ => by rw [Nat.zero_add]
  · intro maxR d
    rw [grab_table_async_trace, grab_async_loop_429_sleeps d maxR 0]
    exact List.map_congr_left fun n _ => by rw [Nat.zero_add]
  · intro maxR d
    rw [grab_table_sync_trace, grab_sync_loop_server_sleeps d maxR 0]
  · intro maxR d
    rw [grab_table_async_trace, grab_async_loop_server_sleeps d maxR 0]
    exact List.map_congr_left fun n _ => by rw [Nat.zero_add]
  · intro d n hd
    constructor
    · intro h
      have hn : n + 1 = 2 ^ n := Nat.eq_of_mul_eq_mul_left hd h
      by_contra hcon
      have h2 : 2 ≤ n := by omega
      have := succ_lt_two_pow n h2
      omega
    · intro h
      rcases Nat.lt_or_ge n 1 with h0 | h1
      · have : n = 0 := by omega
        subst this
        rfl
      · have : n = 1 := by omega
        subst this
        norm_num
  · intro d n hd hn
    have h2 : (2 : Nat) ≤ 2 ^ n := by
      calc (2 : Nat) = 2 ^ 1 := by norm_num
      _ ≤ 2 ^ n := Nat.pow_le_pow_right (by norm_num) hn
    calc d = d * 1 := (Nat.mul_one d).symm
    _ < d * 2 ^ n := mul_lt_mul_of_pos_left (by omega) hd
  · intro net s ids ids' hperm k
    exact crawl_perm net hperm s k

theorem sync_async_schedules_witness :
    ((5 : Nat) * (1 + 1) = 5 * 2 ^ 1 ↔ (1 : Nat) ≤ 1) ∧
    (5 : Nat) < 5 * 2 ^ 2 ∧
    (∀ k, lookupKey
        (crawl (fun r => if r = "RS1" then some emptyRecord else none)
          [] ["RS1", "rs1"]).1 k =
      lookupKey
        (crawl (fun r => if r = "RS1" then some emptyRecord else none)
          [] ["rs1", "RS1"]).1 k) :=
  ⟨sync_async_schedules.2.2.2.2.1 5 1 (by decide),
   sync_async_schedules.2.2.2.2.2.1 5 2 (by decide) (by decide),
   sync_async_schedules.2.2.2.2.2.2
     (fun r => if r = "RS1" then some emptyRecord else none)
     [] ["RS1", "rs1"] ["rs1", "RS1"] (List.Perm.swap "rs1" "RS1" [])⟩

/-! ### Pagination (utils/cache_manager.py lines 234-299) -/

structure PageResult (α : Type) where
  data : List α
  page : Int
  page_size : Nat
  total : Nat
  total_pages : Nat
  has_next : Bool
  has_prev : Bool
  deriving DecidableEq

/-- The pagination core of `load_json_paginated` (lines 275-299) on an
already-loaded item list: ceiling division for `total_pages`, the two clamping
branches (`page < 1` and `page > total_pages and total_pages > 0`), the
`[(page-1)*page_size : (page-1)*page_size + page_size]` slice, and the
`has_next` / `has_prev` flags.  `page` is the requested 1-indexed page and may
be out of range in either direction. -/
def load_json_paginated {α : Type} (items : List α) (page : Int) (page_size : Nat) :
    PageResult α :=
  let total := items.length
  let total_pages := (total + page_size - 1) / page_size
  let pageC : Int :=
    if page < 1 then 1
    else if page > (total_pages : Int) ∧ total_pages > 0 then (total_pages : Int)
    else page
  let start_idx := (pageC - 1).toNat * page_size
  { data := (items.drop start_idx).take page_size
    page := pageC
    page_size := page_size
    total := total
    total_pages := total_pages
    has_next := decide (pageC < (total_pages : Int))
    has_prev := decide (pageC > 1) }

/-! ### C5 -/

/-- C5 counterexample: on an empty collection with requested page 5 and
`page_size = 2`, the code echoes page 5 back (`total_pages = 0`, and the
upper clamp only fires when `total_pages > 0`), refuting "clamps an
out-of-range requested page into `[1, total_pages]`, returning page 1 when
the collection is empty". -/
theorem paginate_empty_page_not_clamped :
    (load_json_paginated ([] : List Nat) 5 2).page = 5 ∧
    (load_json_paginated ([] : List Nat) 5 2).total_pages = 0 ∧
    (5 : Int) ≠ 1 := by
  decide

/-- C5 (amended): for `page_size ≥ 1`, pagination computes
`total_pages = ceil(total / page_size)`; a requested page below 1 is clamped
to 1 and a requested page above `total_pages` is clamped to `total_pages` only
when `total_pages > 0` — on an empty collection any requested page ≥ 1 is
echoed back unclamped; the result carries the
`(page-1)*page_size .. +page_size` slice and the `has_next` / `has_prev`
booleans. -/
theorem paginate_spec {α : Type} (items : List α) (page : Int) (page_size : Nat)
    (hps : 1 ≤ page_size) :
    (load_json_paginated items page page_size).total_pages =
      (items.length + page_size - 1) / page_size ∧
    items.length ≤ (load_json_paginated items page page_size).total_pages * page_size ∧
    (load_json_paginated items page page_size).total_pages * page_size <
      items.length + page_size ∧
    (page < 1 → (load_json_paginated items page page_size).page = 1) ∧
    (1 ≤ page →
      page ≤ ((load_json_paginated items page page_size).total_pages : Int) →
      (load_json_paginated items page page_size).page = page) ∧
    (page > ((load_json_paginated items page page_size).total_pages : Int) →
      0 < (load_json_paginated items page page_size).total_pages →
      (load_json_paginated items page page_size).page =
        ((load_json_paginated items page page_size).total_pages : Int)) ∧
    (items.length = 0 → 1 ≤ page →
      (load_json_paginated items page page_size).page = page) ∧
    (load_json_paginated items page page_size).data =
      (items.drop (((load_json_paginated items page page_size).page - 1).toNat *
        page_size)).take page_size ∧
    ((load_json_paginated items page page_size).has_next = true ↔
      (load_json_paginated items page page_size).page <
        ((load_json_paginated items page page_size).total_pages : Int)) ∧
    ((load_json_paginated items page page_size).has_prev = true ↔
      1 < (load_json_paginated items page page_size).page) := by
  set L := items.length with hL
  set tp := (L + page_size - 1) / page_size with htp
  have hdm := Nat.div_add_mod (L + page_size - 1) page_size
  rw [← htp] at hdm
  have hmlt : (L + page_size - 1) % page_size < page_size :=
    Nat.mod_lt _ (by omega)
  refine ⟨rfl, ?_, ?_, ?_, ?_, ?_, ?_, rfl, ?_, ?_⟩
  · show L ≤ tp * page_size
    rw [Nat.mul_comm]
    omega
  · show tp * page_size < L + page_size
    rw [Nat.mul_comm]
    omega
  · intro hp
    simp only [load_json_paginated]
    rw [if_pos hp]
  · intro hp1 hp2
    simp only [load_json_paginated] at hp2 ⊢
    rw [if_neg (by omega), if_neg (by omega)]
  · intro hp hp0
    simp only [load_json_paginated] at hp hp0 ⊢
    rw [if_neg (by omega), if_pos ⟨hp, hp0⟩]
  · intro hL0 hp1
    have htp0 : tp = 0 := by
      rw [htp, hL]
      rw [hL] at hL0
      rw [hL0]
      exact Nat.div_eq_of_lt (by omega)
    simp only [load_json_paginated]
    rw [← hL, ← htp, htp0]
    rw [if_neg (by omega), if_neg (by omega)]
  · simp [load_json_paginated]
  · simp [load_json_paginated]

theorem paginate_spec_witness :
    (1 ≤ (3 : Int) →
      (3 : Int) ≤ ((load_json_paginated [10, 20, 30, 40, 50] 3 2).total_pages : Int) →
      (load_json_paginated [10, 20, 30, 40, 50] 3 2).page = 3) ∧
    (load_json_paginated [10, 20, 30, 40, 50] 3 2).total_pages = 3 ∧
    (load_json_paginated [10, 20, 30, 40, 50] 3 2).data = [50] ∧
    (load_json_paginated [10, 20, 30, 40, 50] 3 2).has_next = false ∧
    (load_json_paginated [10, 20, 30, 40, 50] 3 2).has_prev = true :=
  ⟨(paginate_spec [10, 20, 30, 40, 50] 3 2 (by decide)).2.2.2.2.1,
   by decide, by decide, by decide, by decide⟩

/-! ### DataCache (utils/cache_manager.py lines 17-133) -/

/-- `CacheEntry` (lines 17-39): opaque payload, insertion timestamp,
time-to-live, access counter (0 at creation). -/
structure CacheEntry (α : Type) where
  data : α
  timestamp : Nat
  ttl : Nat
  access_count : Nat
  deriving DecidableEq

/-- Python tuple comparison `(access_count, timestamp) < (access_count', timestamp')`
used by the `min` key in `_evict_lru`. -/
def tupleLt (a b : Nat × Nat) : Bool :=
  decide (a.1 < b.1 ∨ (a.1 = b.1 ∧ a.2 < b.2))

def entryKeyTuple {α : Type} (e : CacheEntry α) : Nat × Nat :=
  (e.access_count, e.timestamp)

/-- Python `del d[k]`: drop the (unique) binding of `k`. -/
def delKey {β : Type} : List (String × β) → String → List (String × β)
  | [], _ => []
  | (k', v) :: rest, k => if k' = k then rest else (k', v) :: delKey rest k

/-- `entry.access()` bookkeeping: increment the access counter of `k`'s
entry in place. -/
def bumpAccess {α : Type} (l : List (String × CacheEntry α)) (k : String) :
    List (String × CacheEntry α) :=
  l.map fun p =>
    if p.1 = k then (p.1, { p.2 with access_count := p.2.access_count + 1 }) else p

/-- One comparison step of Python `min`: keep the current minimum unless the
next element's key tuple is strictly smaller. -/
def minStep {α : Type} (best q : String × CacheEntry α) : String × CacheEntry α :=
  if tupleLt (entryKeyTuple q.2) (entryKeyTuple best.2) then q else best

/-- Python `min(keys, key=lambda k: (access_count, timestamp))` over an
insertion-ordered dict: the first entry attaining the minimal tuple. -/
def minKeyByTuple {α : Type} :
    List (String × CacheEntry α) → Option (String × CacheEntry α)
  | [] => none
  | p :: rest => some (rest.foldl minStep p)

/-- `DataCache` state (lines 42-57): the entry map plus bookkeeping.  The
wall clock is passed to each operation explicitly (`time.time()`). -/
structure DataCache (α : Type) where
  cache : List (String × CacheEntry α)
  max_size : Nat
  default_ttl : Nat
  hits : Nat
  misses : Nat
  deriving DecidableEq

def DataCache.init (α : Type) (max_size default_ttl : Nat) : DataCache α :=
  { cache := [], max_size := max_size, default_ttl := default_ttl,
    hits := 0, misses := 0 }

/-- `DataCache.get` (lines 59-83): miss on absent key; lazy deletion and miss
once `now - timestamp > ttl`; otherwise hit, bumping the access counter. -/
def DataCache.get {α : Type} (c : DataCache α) (k : String) (now : Nat) :
    DataCache α × Option α :=
  match lookupKey c.cache k with
  | none => ({ c with misses := c.misses + 1 }, none)
  | some e =>
    if now - e.timestamp > e.ttl then
      ({ c with cache := delKey c.cache k, misses := c.misses + 1 }, none)
    else
      ({ c with cache := bumpAccess c.cache k, hits := c.hits + 1 }, some e.data)

/-- `DataCache._evict_lru` (lines 121-133): drop the entry with the minimal
`(access_count, timestamp)` tuple; no-op on an empty cache. -/
def DataCache.evict_lru {α : Type} (c : DataCache α) : DataCache α :=
  match minKeyByTuple c.cache with
  | none => c
  | some p => { c with cache := delKey c.cache p.1 }

/-- `DataCache.set` (lines 85-100): evict once when the cache is full and the
key is new, then insert a fresh entry (default TTL when none given). -/
def DataCache.set {α : Type} (c : DataCache α) (k : String) (d : α)
    (ttl : Option Nat) (now : Nat) : DataCache α :=
  let c1 :=
    if c.cache.length ≥ c.max_size ∧ containsKey c.cache k = false then
      c.evict_lru
    else c
  let t :=
    match ttl with
    | some t => t
    | none => c.default_ttl
  { c1 with
    cache := setKey c1.cache k
      { data := d, timestamp := now, ttl := t, access_count := 0 } }

/-- `DataCache.invalidate` (lines 102-111). -/
def DataCache.invalidate {α : Type} (c : DataCache α) (k : String) : DataCache α :=
  if containsKey c.cache k then { c with cache := delKey c.cache k } else c

/-- `DataCache.clear` (lines 113-119). -/
def DataCache.clear {α : Type} (c : DataCache α) : DataCache α :=
  { c with cache := [], hits := 0, misses := 0 }

/-- One client call against the cache, with its wall-clock instant. -/
inductive CacheOp (α : Type) where
  | get (k : String) (now : Nat)
  | set (k : String) (d : α) (ttl : Option Nat) (now : Nat)
  | invalidate (k : String)
  | clear

def applyOp {α : Type} (c : DataCache α) : CacheOp α → DataCache α
  | .get k now => (c.get k now).1
  | .set k d ttl now => c.set k d ttl now
  | .invalidate k => c.invalidate k
  | .clear => c.clear

def runOps {α : Type} (c : DataCache α) : List (CacheOp α) → DataCache α
  | [] => c
  | op :: rest => runOps (applyOp c op) rest

/-! ### C10 -/

theorem tupleLt_irrefl (a : Nat × Nat) : tupleLt a a = false := by
  simp [tupleLt]

theorem tupleLt_shift (a b r : Nat × Nat)
    (h1 : tupleLt a b = true) (h2 : tupleLt a r = false) : tupleLt b r = false := by
  simp only [tupleLt, decide_eq_true_eq, decide_eq_false_iff_not] at *
  omega

theorem tupleLt_chain (a b r : Nat × Nat)
    (h1 : tupleLt a b = false) (h2 : tupleLt b r = false) : tupleLt a r = false := by
  simp only [tupleLt, decide_eq_false_iff_not] at *
  omega

theorem foldl_minStep_spec {α : Type} :
    ∀ (l : List (String × CacheEntry α)) (b : String × CacheEntry α),
      (l.foldl minStep b = b ∨ l.foldl minStep b ∈ l) ∧
      tupleLt (entryKeyTuple b.2) (entryKeyTuple (l.foldl minStep b).2) = false ∧
      ∀ q ∈ l, tupleLt (entryKeyTuple q.2) (entryKeyTuple (l.foldl minStep b).2) = false := by
  intro l
  induction l with
  | nil =>
    intro b
    refine ⟨Or.inl rfl, tupleLt_irrefl _, ?_⟩
    intro q hq
    cases hq
  | cons p t ih =>
    intro b
    rw [List.foldl_cons]
    by_cases hlt : tupleLt (entryKeyTuple p.2) (entryKeyTuple b.2) = true
    · have hstep : minStep b p = p := by simp [minStep, hlt]
      rw [hstep]
      obtain ⟨ihmem, ihb, ihall⟩ := ih p
      refine ⟨?_, tupleLt_shift _ _ _ hlt ihb, ?_⟩
      · rcases ihmem with h | h
        · right
          rw [h]
          exact List.mem_cons_self _ _
        · right
          exact List.mem_cons_of_mem _ h
      · intro q hq
        rcases List.mem_cons.mp hq with h | h
        · rw [h]
          exact ihb
        · exact ihall q h
    · have hlt' : tupleLt (entryKeyTuple p.2) (entryKeyTuple b.2) = false := by
        simpa using hlt
      have hstep : minStep b p = b := by simp [minStep, hlt']
      rw [hstep]
      obtain ⟨ihmem, ihb, ihall⟩ := ih b
      refine ⟨?_, ihb, ?_⟩
      · rcases ihmem with h | h
        · exact Or.inl h
        · exact Or.inr (List.mem_cons_of_mem _ h)
      · intro q hq
        rcases List.mem_cons.mp hq with h | h
        · rw [h]
          exact tupleLt_chain _ _ _ hlt' ihb
        · exact ihall q h

theorem minKeyByTuple_spec {α : Type} (l : List (String × CacheEntry α))
    (hne : l ≠ []) :
    ∃ p, minKeyByTuple l = some p ∧ p ∈ l ∧
      ∀ q ∈ l, tupleLt (entryKeyTuple q.2) (entryKeyTuple p.2) = false := by
  match l, hne with
  | p :: t, _ =>
    obtain ⟨hmem, hb, hall⟩ := foldl_minStep_spec t p
    refine ⟨t.foldl minStep p, rfl, ?_, ?_⟩
    · rcases hmem with h | h
      · rw [h]
        exact List.mem_cons_self _ _
      · exact List.mem_cons_of_mem _ h
    · intro q hq
      rcases List.mem_cons.mp hq with h | h
      · rw [h]
        exact hb
      · exact hall q h

theorem containsKey_of_mem {β : Type} :
    ∀ (l : List (String × β)) (p : String × β), p ∈ l → containsKey l p.1 = true := by
  intro l
  induction l with
  | nil =>
    intro p hp
    cases hp
  | cons q t ih =>
    intro p hp
    obtain ⟨qk, qv⟩ := q
    rcases List.mem_cons.mp hp with h | h
    · subst h
      simp [containsKey, lookupKey]
    · by_cases hq : qk = p.1
      · simp [containsKey, lookupKey, hq]
      · have := ih p h
        simp only [containsKey, lookupKey, hq, if_false] at this ⊢
        exact this

theorem length_delKey_le {β : Type} :
    ∀ (l : List (String × β)) (k : String), (delKey l k).length ≤ l.length := by
  intro l
  induction l with
  | nil => intro k; exact Nat.le_refl 0
  | cons q t ih =>
    intro k
    obtain ⟨qk, qv⟩ := q
    simp only [delKey, List.length_cons]
    by_cases hq : qk = k
    · rw [if_pos hq]
      omega
    · rw [if_neg hq]
      simp only [List.length_cons]
      have := ih k
      omega

theorem length_delKey_of_contains {β : Type} :
    ∀ (l : List (String × β)) (k : String), containsKey l k = true →
      (delKey l k).length + 1 = l.length := by
  intro l
  induction l with
  | nil =>
    intro k h
    simp [containsKey, lookupKey] at h
  | cons q t ih =>
    intro k h
    obtain ⟨qk, qv⟩ := q
    by_cases hq : qk = k
    · simp [delKey, hq]
    · simp only [containsKey, lookupKey, hq, if_false] at h
      simp only [delKey, hq, if_false, List.length_cons]
      rw [← ih k h]

theorem length_setKey {β : Type} :
    ∀ (l : List (String × β)) (k : String) (v : β),
      (setKey l k v).length =
        if containsKey l k = true then l.length else l.length + 1 := by
  intro l
  induction l with
  | nil =>
    intro k v
    simp [setKey, containsKey, lookupKey]
  | cons q t ih =>
    intro k v
    obtain ⟨qk, qv⟩ := q
    by_cases hq : qk = k
    · simp [setKey, containsKey, lookupKey, hq]
    · have hck : containsKey ((qk, qv) :: t) k = containsKey t k := by
        simp [containsKey, lookupKey, hq]
      have hsk : setKey ((qk, qv) :: t) k v = (qk, qv) :: setKey t k v := by
        simp [setKey, hq]
      rw [hsk]
      simp only [List.length_cons]
      rw [ih k v, hck]
      by_cases hc : containsKey t k = true
      · rw [if_pos hc, if_pos hc]
      · rw [if_neg hc, if_neg hc]

theorem length_setKey_le {β : Type} (l : List (String × β)) (k : String) (v : β) :
    (setKey l k v).length ≤ l.length + 1 := by
  rw [length_setKey]
  by_cases h : containsKey l k = true <;> simp [h]

theorem set_cache_shape {α : Type} (c : DataCache α) (k : String) (d : α)
    (t : Option Nat) (now : Nat)
    (hfull : c.max_size ≤ c.cache.length) (hnew : containsKey c.cache k = false)
    (hne : c.cache ≠ []) :
    ∃ p, minKeyByTuple c.cache = some p ∧ p ∈ c.cache ∧
      (∀ q ∈ c.cache, tupleLt (entryKeyTuple q.2) (entryKeyTuple p.2) = false) ∧
      (DataCache.set c k d t now).cache =
        setKey (delKey c.cache p.1) k
          { data := d, timestamp := now,
            ttl := match t with | some x => x | none => c.default_ttl,
            access_count := 0 } := by
  obtain ⟨p, hmin, hpmem, hplow⟩ := minKeyByTuple_spec c.cache hne
  refine ⟨p, hmin, hpmem, hplow, ?_⟩
  show (DataCache.set c k d t now).cache = _
  unfold DataCache.set
  rw [if_pos ⟨hfull, hnew⟩]
  unfold DataCache.evict_lru
  rw [hmin]

theorem get_cache_size {α : Type} (c : DataCache α) (k : String) (now : Nat) :
    ((DataCache.get c k now).1).cache.length ≤ c.cache.length := by
  unfold DataCache.get
  cases hl : lookupKey c.cache k with
  | none => simp
  | some e =>
    by_cases hexp : now - e.timestamp > e.ttl
    · simp [hexp, length_delKey_le]
    · simp [hexp, bumpAccess]

theorem invalidate_cache_size {α : Type} (c : DataCache α) (k : String) :
    (DataCache.invalidate c k).cache.length ≤ c.cache.length := by
  unfold DataCache.invalidate
  by_cases h : containsKey c.cache k = true
  · simp [h, length_delKey_le]
  · simp only [Bool.not_eq_true] at h
    simp [h]

theorem set_cache_size {α : Type} (c : DataCache α) (k : String) (d : α)
    (t : Option Nat) (now : Nat) (hm : 1 ≤ c.max_size)
    (hc : c.cache.length ≤ c.max_size) :
    (DataCache.set c k d t now).cache.length ≤ c.max_size := by
  by_cases hcond : c.cache.length ≥ c.max_size ∧ containsKey c.cache k = false
  · have hne : c.cache ≠ [] := by
      intro h
      rw [h] at hcond
      simp at hcond
      omega
    obtain ⟨p, _, hpmem, _, hshape⟩ :=
      set_cache_shape c k d t now hcond.1 hcond.2 hne
    rw [hshape]
    refine le_trans (length_setKey_le _ _ _) ?_
    have h2 := length_delKey_of_contains c.cache p.1 (containsKey_of_mem c.cache p hpmem)
    omega
  · unfold DataCache.set
    rw [if_neg hcond]
    by_cases hk : containsKey c.cache k = true
    · rw [length_setKey, if_pos hk]
      exact hc
    · have hk' : containsKey c.cache k = false := by simpa using hk
      have hlt : c.cache.length < c.max_size := by
        rcases Decidable.not_and_iff_or_not.mp hcond with h | h
        · omega
        · exact absurd hk' h
      rw [length_setKey, if_neg (by simp [hk'])]
      omega

theorem applyOp_size {α : Type} (c : DataCache α) (op : CacheOp α)
    (hm : 1 ≤ c.max_size) (hc : c.cache.length ≤ c.max_size) :
    (applyOp c op).cache.length ≤ c.max_size ∧ (applyOp c op).max_size = c.max_size := by
  cases op with
  | get k now =>
    refine ⟨le_trans (get_cache_size c k now) hc, ?_⟩
    show (DataCache.get c k now).1.max_size = c.max_size
    unfold DataCache.get
    cases hl : lookupKey c.cache k with
    | none => rfl
    | some e =>
      by_cases hexp : now - e.timestamp > e.ttl <;> simp [hexp]
  | set k d ttl now =>
    refine ⟨set_cache_size c k d ttl now hm hc, ?_⟩
    show (DataCache.set c k d ttl now).max_size = c.max_size
    unfold DataCache.set DataCache.evict_lru
    by_cases hcond : c.cache.length ≥ c.max_size ∧ containsKey c.cache k = false
    · rw [if_pos hcond]
      cases minKeyByTuple c.cache <;> rfl
    · rw [if_neg hcond]
  | invalidate k =>
    refine ⟨le_trans (invalidate_cache_size c k) hc, ?_⟩
    show (DataCache.invalidate c k).max_size = c.max_size
    unfold DataCache.invalidate
    by_cases h : containsKey c.cache k = true <;> simp [h]
  | clear =>
    exact ⟨by simp [applyOp, DataCache.clear], rfl⟩

theorem runOps_size {α : Type} :
    ∀ (ops : List (CacheOp α)) (c : DataCache α),
      1 ≤ c.max_size → c.cache.length ≤ c.max_size →
      (runOps c ops).cache.length ≤ c.max_size ∧
        (runOps c ops).max_size = c.max_size := by
  intro ops
  induction ops with
  | nil =>
    intro c h1 h2
    exact ⟨h2, rfl⟩
  | cons op rest ih =>
    intro c h1 h2
    obtain ⟨ha, hb⟩ := applyOp_size c op h1 h2
    obtain ⟨hc', hd⟩ := ih (applyOp c op) (hb ▸ h1) (hb ▸ ha)
    exact ⟨hb ▸ hc', hd.trans hb⟩

/-- C10: starting from any cache with `max_size ≥ 1`, no sequence of get, set,
invalidate, and clear operations ever makes the entry count exceed
`max_size`; a set on a full cache with a new key first evicts exactly one
existing entry — one attaining the minimal `(access_count, timestamp)`
tuple — before inserting, and no other operation grows the cache. -/
theorem cache_size_bounded (α : Type) (m ttl0 : Nat) (hm : 1 ≤ m)
    (ops : List (CacheOp α)) :
    (runOps (DataCache.init α m ttl0) ops).cache.length ≤ m ∧
    (∀ (c : DataCache α) (k : String) (d : α) (t : Option Nat) (now : Nat),
      1 ≤ c.max_size → c.max_size ≤ c.cache.length →
      containsKey c.cache k = false →
      ∃ p, minKeyByTuple c.cache = some p ∧ p ∈ c.cache ∧
        (∀ q ∈ c.cache, tupleLt (entryKeyTuple q.2) (entryKeyTuple p.2) = false) ∧
        (DataCache.set c k d t now).cache =
          setKey (delKey c.cache p.1) k
            { data := d, timestamp := now,
              ttl := match t with | some x => x | none => c.default_ttl,
              access_count := 0 }) ∧
    (∀ (c : DataCache α) (k : String) (now : Nat),
      ((DataCache.get c k now).1).cache.length ≤ c.cache.length) ∧
    (∀ (c : DataCache α) (k : String),
      (DataCache.invalidate c k).cache.length ≤ c.cache.length) ∧
    (∀ c : DataCache α, (DataCache.clear c).cache.length = 0) := by
  refine ⟨?_, ?_, get_cache_size, invalidate_cache_size, fun c => rfl⟩
  · exact (runOps_size ops (DataCache.init α m ttl0) hm (by simp [DataCache.init])).1
  · intro c k d t now hm' hfull hnew
    have hne : c.cache ≠ [] := by
      intro h
      rw [h] at hfull
      simp at hfull
      omega
    exact set_cache_shape c k d t now hfull hnew hne

/-- A full one-slot cache holding only `"a"`. -/
def c10_full : DataCache Nat :=
  { cache := [("a", { data := 7, timestamp := 0, ttl := 3600, access_count := 0 })]
    max_size := 1, default_ttl := 3600, hits := 0, misses := 0 }

theorem cache_size_bounded_witness :
    (runOps (DataCache.init Nat 1 3600)
      [CacheOp.set "a" 7 none 0, CacheOp.set "b" 8 none 1]).cache.length ≤ 1 ∧
    ∃ p, minKeyByTuple c10_full.cache = some p ∧ p ∈ c10_full.cache ∧
      (∀ q ∈ c10_full.cache,
        tupleLt (entryKeyTuple q.2) (entryKeyTuple p.2) = false) ∧
      (DataCache.set c10_full "b" 8 none 1).cache =
        setKey (delKey c10_full.cache p.1) "b"
          { data := 8, timestamp := 1, ttl := 3600, access_count := 0 } :=
  ⟨(cache_size_bounded Nat 1 3600 (by decide)
      [CacheOp.set "a" 7 none 0, CacheOp.set "b" 8 none 1]).1,
   (cache_size_bounded Nat 1 3600 (by decide) []).2.1 c10_full "b" 8 none 1
     (by decide) (by decide) (by decide)⟩

end OSGenome
